import Mathlib

/-!
Verification of `plotly/graph_reference.py`: the graph-reference loader, the
object-name to class-name transform, and the object / class-name registries.

The Python code is shallowly embedded: JSON documents become the inductive
`JVal`, Python dicts become insertion-ordered association lists (first key
occurrence wins on lookup, as in a Python dict kept without duplicate keys),
and code that can raise becomes `Option` / `Except`.  External collaborators
of the module (file permissions, cached files, HTTP, JSON decoding, unicode
normalization) are fields of an explicit environment `Env`.
-/

namespace GraphReference

/-- A JSON value, as produced by `json.loads`.  Objects keep their key order,
matching Python dict insertion order. -/
inductive JVal where
  | null
  | bool (b : Bool)
  | num (n : Int)
  | str (s : String)
  | arr (items : List JVal)
  | obj (fields : List (String × JVal))

/-- Python truthiness (`if value:`) for the JSON values `JVal` can hold. -/
def isTruthy : JVal → Bool
  | .null => false
  | .bool b => b
  | .num n => decide (n ≠ 0)
  | .str s => decide (s ≠ "")
  | .arr items => !items.isEmpty
  | .obj fields => !fields.isEmpty

/-- Python `d[k]` / `d.get(k)` on an insertion-ordered dict: first matching key. -/
def dictGet {α : Type} : List (String × α) → String → Option α
  | [], _ => none
  | (k', v) :: rest, k => if k' = k then some v else dictGet rest k

/-- Python `d[k] = v`: replace the value in place if the key is present,
otherwise append the new key at the end (dict insertion order). -/
def dictSet {α : Type} : List (String × α) → String → α → List (String × α)
  | [], k, v => [(k, v)]
  | (k', v') :: rest, k, v =>
      if k' = k then (k, v) :: rest else (k', v') :: dictSet rest k v

/-- Embeds `re.sub(r'[A-Za-z]', lambda m: m.group().title(), string, count=1)`:
the first ASCII letter anywhere in the string is uppercased (`.title()` of a
single letter), everything else is left unchanged. -/
def capitalizeFirstAlpha : List Char → List Char
  | [] => []
  | c :: cs => if c.isAlpha then c.toUpper :: cs else c :: capitalizeFirstAlpha cs

/-- Python `str.title()` of a single `[A-Za-z]+` word: first letter uppercased,
the remaining letters lowercased. -/
def titleWord : List Char → List Char
  | [] => []
  | c :: cs => c.toUpper :: cs.map Char.toLower

mutual

/-- Embeds `re.sub(r'_[A-Za-z]+', lambda m: m.group()[1:].title(), string)` as
the scan the regex engine performs: at each position, an underscore followed by
at least one letter starts a match (handled by `scanUnd`), any other character
is copied. -/
def scanRuns : List Char → List Char
  | [] => []
  | c :: cs => if c = '_' then scanUnd cs else c :: scanRuns cs

/-- The characters after a just-seen underscore.  A letter begins the matched
run `_[A-Za-z]+`, whose replacement `.title()`s the run (first letter up, rest
down, done by `scanRun`); otherwise the regex does not match here, the
underscore is kept, and scanning restarts at the next character (which may
itself be an underscore). -/
def scanUnd : List Char → List Char
  | [] => ['_']
  | c :: cs =>
      if c.isAlpha then c.toUpper :: scanRun cs
      else if c = '_' then '_' :: scanUnd cs
      else '_' :: c :: scanRuns cs

/-- Inside a matched run: the regex `+` is greedy, so letters are consumed (and
lowercased by `.title()`) until a non-letter ends the match; scanning then
resumes, an underscore immediately starting a new potential match. -/
def scanRun : List Char → List Char
  | [] => []
  | c :: cs =>
      if c.isAlpha then c.toLower :: scanRun cs
      else if c = '_' then scanUnd cs
      else c :: scanRuns cs

end

/-- Embeds `string_to_class_name` of `plotly/graph_reference.py`: capitalize
the first letter, then replace every `_[A-Za-z]+` run by its `.title()`d body. -/
def string_to_class_name (s : String) : String :=
  String.mk (scanRuns (capitalizeFirstAlpha s.data))

/-- Modelled from the spec: rule 1 of the NameTransformer, "Capitalize only the
first alphabetic character of the string (leave the rest of that first run of
letters as-is beyond the single char)", rendered directly as: skip the maximal
non-alphabetic prefix, uppercase the single character after it (when there is
one), keep everything else as it stands. -/
def specRule1 (l : List Char) : List Char :=
  match l.dropWhile (fun c => !c.isAlpha) with
  | [] => l
  | c :: rest => l.takeWhile (fun c => !c.isAlpha) ++ c.toUpper :: rest

/-- Modelled from the spec: rule 2 of the NameTransformer, "For every
subsequent underscore-prefixed run of letters (`_[A-Za-z]+`), drop the
underscore and capitalize that entire run", rendered directly as: at an
underscore followed by a nonempty maximal run of letters, drop the underscore
and capitalize the run as a word; elsewhere copy. -/
def specRule2 : List Char → List Char
  | [] => []
  | c :: cs =>
      if c = '_' ∧ cs.takeWhile Char.isAlpha ≠ [] then
        titleWord (cs.takeWhile Char.isAlpha) ++ specRule2 (cs.dropWhile Char.isAlpha)
      else c :: specRule2 cs
termination_by l => l.length
decreasing_by
  · have h := (List.dropWhile_sublist (l := cs) Char.isAlpha).length_le
    simp
    omega
  · simp

/-- Modelled from the spec: the NameTransformer, rules 1 and 2 in order. -/
def specNameTransform (s : String) : String :=
  String.mk (specRule2 (specRule1 s.data))

mutual

/-- Modelled from the spec: `utils.node_generator` (the TreeIndexer), whose
code is not part of this repository snapshot.  It "produces the lazy sequence
of (node, path) pairs for every node in the schema tree", depth-first: a
mapping node is yielded with its path, then each of its values is walked with
the key appended to the path. -/
def nodeGenerator : JVal → List String → List (JVal × List String)
  | .obj fields, path => (JVal.obj fields, path) :: nodeGenFields fields path
  | _, _ => []

/-- Walks the fields of a mapping node in order, for `nodeGenerator`. -/
def nodeGenFields : List (String × JVal) → List String → List (JVal × List String)
  | [], _ => []
  | (k, v) :: rest, path => nodeGenerator v (path ++ [k]) ++ nodeGenFields rest path

end

/-- Modelled from the spec: `utils.get_by_path` (not part of this repository
snapshot): follow the keys of an object path down the document; a missing key
or indexing a non-mapping is a lookup failure (`none`). -/
def getByPath : JVal → List String → Option JVal
  | v, [] => some v
  | .obj fields, k :: rest =>
      match dictGet fields k with
      | some v => getByPath v rest
      | none => none
  | _, _ :: _ => none

/-- The object registry: object names to lists of object paths. -/
abbrev Registry := List (String × List (List String))

/-- Embeds the append pattern of `_get_objects`: `if name not in objects:
objects[name] = []` followed by `objects[name].append(object_path)`. -/
def registerPath : Registry → String → List String → Registry
  | [], k, p => [(k, [p])]
  | (k', l) :: rest, k, p =>
      if k' = k then (k, l ++ [p]) :: rest else (k', l) :: registerPath rest k p

/-- Python `name[:-1]`: the string with its final character removed. -/
def singularForm (s : String) : String :=
  String.mk s.data.dropLast

/-- One iteration of the `for object_path in OBJECT_PATHS` loop of
`_get_objects`: `name = object_path[-1]` (an `IndexError` on an empty path),
`value = utils.get_by_path(GRAPH_REFERENCE, object_path)` (whose failures also
abort), then registration under `name[:-1]` when `value.get('_isLinkedToArray',
False)` is truthy, and always under `name`. -/
def processObjectPath (g : JVal) (objects : Registry) (path : List String) :
    Option Registry :=
  match path.getLast? with
  | none => none
  | some name =>
      match getByPath g path with
      | some (JVal.obj fields) =>
          let linked := isTruthy ((dictGet fields "_isLinkedToArray").getD (JVal.bool false))
          let objects := if linked then registerPath objects (singularForm name) path else objects
          some (registerPath objects name path)
      | _ => none

/-- Embeds `_get_objects`, with the module-level globals it reads
(`GRAPH_REFERENCE`, `OBJECT_PATHS`, `TRACE_NAMES`) passed as arguments: the
registration loop over the object paths, then
`objects.update(\x7btrace_name: [] for trace_name in TRACE_NAMES\x7d)` and
`objects.update(figure=[], data=[], layout=[])`. -/
def _get_objects (g : JVal) (objectPaths : List (List String))
    (traceNames : List String) : Option Registry := do
  let objects ← objectPaths.foldlM (processObjectPath g) []
  let objects := traceNames.foldl (fun d t => dictSet d t []) objects
  return dictSet (dictSet (dictSet objects "figure" []) "data" []) "layout" []

/-- The filter `node.get('role') == 'object'` of the `OBJECT_PATHS`
comprehension. -/
def roleIsObject : JVal → Bool
  | .obj fields =>
      match dictGet fields "role" with
      | some (.str r) => decide (r = "object")
      | _ => false
  | _ => false

/-- Embeds the module-level `OBJECT_PATHS`: paths of all nodes of the document
whose `role` is `"object"`, in traversal order. -/
def OBJECT_PATHS (g : JVal) : List (List String) :=
  (nodeGenerator g []).filterMap (fun np => if roleIsObject np.1 then some np.2 else none)

/-- Embeds the module-level `TRACE_NAMES = GRAPH_REFERENCE['traces'].keys()`:
`none` models the `KeyError` / attribute failure when the document has no
`traces` mapping. -/
def TRACE_NAMES (g : JVal) : Option (List String) :=
  match g with
  | .obj fields =>
      match dictGet fields "traces" with
      | some (.obj tf) => some (tf.map Prod.fst)
      | _ => none
  | _ => none

/-- Embeds the module-level `OBJECTS = _get_objects()` with the globals it
reads computed from the document `g`. -/
def OBJECTS (g : JVal) : Option Registry := do
  let tns ← TRACE_NAMES g
  _get_objects g (OBJECT_PATHS g) tns

/-- Whether the object registry of document `g` stores path `p` under key `k`. -/
def pathRegisteredUnder (g : JVal) (p : List String) (k : String) : Bool :=
  match OBJECTS g with
  | some reg =>
      match dictGet reg k with
      | some l => decide (p ∈ l)
      | none => false
  | none => false

/-- Whether the node of `g` at path `p` has a truthy `_isLinkedToArray`, as
`_get_objects` tests it (`value.get('_isLinkedToArray', False)`). -/
def nodeIsLinkedToArray (g : JVal) (p : List String) : Bool :=
  match getByPath g p with
  | some (.obj fields) => isTruthy ((dictGet fields "_isLinkedToArray").getD (JVal.bool false))
  | _ => false

/-- The fixed `_BACKWARDS_COMPAT_CLASS_NAME_TO_OBJECT_NAME` table, in source
order. -/
def _BACKWARDS_COMPAT_CLASS_NAME_TO_OBJECT_NAME : List (String × String) :=
  [("AngularAxis", "angularaxis"),
   ("ColorBar", "colorbar"),
   ("Area", "scatter"),
   ("Font", "textfont"),
   ("Histogram2dContour", "histogram2dcontour"),
   ("RadialAxis", "radialaxis"),
   ("XAxis", "xaxis"),
   ("XBins", "xbins"),
   ("YAxis", "yaxis"),
   ("YBins", "ybins"),
   ("ZAxis", "zaxis")]

/-- Embeds `_get_class_names_to_object_names`, with the keys of the global
`OBJECTS` dict passed as the list `objectNames` (Python iterates them in
insertion order): derive a class name for every object name, then overlay the
backwards-compatibility table, whose entries overwrite. -/
def _get_class_names_to_object_names (objectNames : List String) :
    List (String × String) :=
  let d := objectNames.foldl (fun d objName => dictSet d (string_to_class_name objName) objName) []
  _BACKWARDS_COMPAT_CLASS_NAME_TO_OBJECT_NAME.foldl (fun d kv => dictSet d kv.1 kv.2) d

/-- Outcome of `requests.get(url)`: a raised `RequestException`, or a response
with its HTTP status and body. -/
inductive HttpResult where
  | netError
  | response (status : Nat) (content : String)

/-- The Python exceptions `get_graph_reference` can raise or propagate:
`KeyError` (missing config key), `TypeError` (concatenating a non-string
domain), `ValueError` (`json.loads` on a bad body), an uncaught
`requests.exceptions.RequestException`, and `exceptions.PlotlyError` with its
message. -/
inductive PyError where
  | keyError
  | typeError
  | valueError
  | requestException
  | plotlyError (msg : String)

/-- The module's external collaborators: the file-permission check, the two
cached JSON files `utils.load_json_dict` returns (a dict each, possibly
empty), the compiled-in default domain
`files.FILE_CONTENT[files.CONFIG_FILE]['plotly_domain']`, the HTTP client,
`json.loads`, and `utils.decode_unicode`.  All are opaque services this
module calls. -/
structure Env where
  filePermissions : Bool
  graphReferenceFile : List (String × JVal)
  configFile : List (String × JVal)
  defaultDomain : String
  requestsGet : String → HttpResult
  jsonLoads : String → Option JVal
  decodeUnicode : JVal → JVal

/-- The constant `GRAPH_REFERENCE_PATH` of the source. -/
def GRAPH_REFERENCE_PATH : String := "/plot-schema.json"

/-- The text of the `PlotlyError` before the URL. -/
def schemaErrorMessageHead : String :=
  "The schema used to validate Plotly figures has never been downloaded to " ++
  "your computer. You'll need to connect to a Plotly server at least once to " ++
  "do this.\nYou're seeing this error because the attempt to download the " ++
  "schema from '"

/-- The text of the `PlotlyError` after the URL. -/
def schemaErrorMessageTail : String := "' failed."

/-- The message of the `PlotlyError` raised on a failed schema download, with
the attempted URL formatted into it. -/
def schemaErrorMessage (url : String) : String :=
  schemaErrorMessageHead ++ url ++ schemaErrorMessageTail

/-- `response.raise_for_status()`: raises `requests.exceptions.HTTPError` (a
`RequestException`) exactly for 4xx and 5xx statuses. -/
def raiseForStatusFails (status : Nat) : Bool :=
  decide (400 ≤ status ∧ status < 600)

/-- The body of the `if not graph_reference:` block of `get_graph_reference`:
`requests.get` and `raise_for_status` inside the `try`, a `RequestException`
from either replaced by the `PlotlyError` naming the URL, then
`json.loads(response.content)` outside the `try`. -/
def fetchSchema (env : Env) (url : String) : Except PyError JVal :=
  match env.requestsGet url with
  | .netError => .error (.plotlyError (schemaErrorMessage url))
  | .response status content =>
      if raiseForStatusFails status then .error (.plotlyError (schemaErrorMessage url))
      else
        match env.jsonLoads content with
        | none => .error .valueError
        | some v => .ok v

/-- What a call of `get_graph_reference` produced, and whether it issued an
HTTP GET on the way. -/
structure GGRResult where
  result : Except PyError JVal
  httpCalled : Bool

/-- Embeds `get_graph_reference`: load the cached schema and the configured
domain when permissions allow (`config['plotly_domain']` is read eagerly and
its absence raises `KeyError`), otherwise start from an empty schema and the
compiled-in default domain; when the loaded schema is falsy, build the URL
(`TypeError` if the domain is not a string) and fetch; finally return
`utils.decode_unicode` of the document. -/
def get_graph_reference (env : Env) : GGRResult :=
  match
    (if env.filePermissions then
      match dictGet env.configFile "plotly_domain" with
      | some dv => Except.ok (JVal.obj env.graphReferenceFile, dv)
      | none => Except.error PyError.keyError
    else
      Except.ok (JVal.obj [], JVal.str env.defaultDomain)) with
  | .error e => ⟨.error e, false⟩
  | .ok (graphReference, domainVal) =>
      if isTruthy graphReference then
        ⟨.ok (env.decodeUnicode graphReference), false⟩
      else
        match domainVal with
        | .str d =>
            match fetchSchema env (d ++ GRAPH_REFERENCE_PATH) with
            | .error e => ⟨.error e, true⟩
            | .ok v => ⟨.ok (env.decodeUnicode v), true⟩
        | _ => ⟨.error .typeError, false⟩

/-- The minimal schema document of the spec's property 5:
`{"traces": {"scatter": {}}, "layout": {"role": "object"}}`. -/
def gMinimal : JVal :=
  .obj [("traces", .obj [("scatter", .obj [])]),
        ("layout", .obj [("role", .str "object")])]

/-- A schema document whose `traces` key `"points"` is also the (plural) name
of a linked-to-array object node. -/
def gPoints : JVal :=
  .obj [("traces", .obj [("points", .obj [])]),
        ("points", .obj [("role", .str "object"), ("_isLinkedToArray", .bool true)])]

/-- A schema document with a linked-to-array object node `"markers"` that does
not collide with any trace name or fixed registry key. -/
def gMarkers : JVal :=
  .obj [("traces", .obj []),
        ("markers", .obj [("role", .str "object"), ("_isLinkedToArray", .bool true)])]

/-- An environment with permissions granted, a non-empty cached schema, and a
config file that lacks the `plotly_domain` key. -/
def envNoDomain : Env where
  filePermissions := true
  graphReferenceFile := [("traces", .obj [])]
  configFile := []
  defaultDomain := "https://plot.ly"
  requestsGet := fun _ => .netError
  jsonLoads := fun _ => none
  decodeUnicode := fun v => v

/-- An environment with no local file permissions whose HTTP GET always fails
with a network error. -/
def envOffline : Env where
  filePermissions := false
  graphReferenceFile := []
  configFile := []
  defaultDomain := "https://plot.ly"
  requestsGet := fun _ => .netError
  jsonLoads := fun _ => none
  decodeUnicode := fun v => v

/-- An environment with permissions granted, a non-empty cached schema, and a
config file that does name a plotly domain. -/
def envCached : Env where
  filePermissions := true
  graphReferenceFile := [("traces", .obj [("scatter", .obj [])])]
  configFile := [("plotly_domain", .str "https://plot.ly")]
  defaultDomain := "https://plot.ly"
  requestsGet := fun _ => .netError
  jsonLoads := fun _ => none
  decodeUnicode := fun v => v

theorem dictGet_dictSet_self {α : Type} (d : List (String × α)) (k : String) (v : α) :
    dictGet (dictSet d k v) k = some v := by
  induction d with
  | nil => simp [dictSet, dictGet]
  | cons p rest ih =>
      by_cases h : p.1 = k
      · simp [dictSet, dictGet, h]
      · simp [dictSet, dictGet, h, ih]

theorem dictGet_dictSet_ne {α : Type} (d : List (String × α)) (k k' : String) (v : α)
    (h : k ≠ k') : dictGet (dictSet d k v) k' = dictGet d k' := by
  induction d with
  | nil => simp [dictSet, dictGet, h]
  | cons p rest ih =>
      by_cases hp : p.1 = k
      · simp [dictSet, dictGet, hp, h]
      · have h' : ¬ (k' = k) := fun hh => h hh.symm
        by_cases hp' : p.1 = k'
        · simp [dictSet, dictGet, hp, hp', h']
        · simp [dictSet, dictGet, hp, hp', ih]

theorem capitalizeFirstAlpha_eq_specRule1 (l : List Char) :
    capitalizeFirstAlpha l = specRule1 l := by
  induction l with
  | nil => simp [capitalizeFirstAlpha, specRule1]
  | cons c cs ih =>
      by_cases hc : c.isAlpha
      · simp [capitalizeFirstAlpha, specRule1, hc]
      · rw [capitalizeFirstAlpha, if_neg (by simp [hc]), ih]
        unfold specRule1
        rw [List.dropWhile_cons, if_pos (by simp [hc]),
            List.takeWhile_cons, if_pos (by simp [hc])]
        cases h : cs.dropWhile (fun c => !c.isAlpha) with
        | nil => simp
        | cons c' rest => simp

/-- The scanner's in-run state realizes the greedy `[A-Za-z]+`: it lowercases
exactly the maximal letter run and then resumes the outer scan. -/
theorem scanRun_eq (xs : List Char) :
    scanRun xs =
      (xs.takeWhile Char.isAlpha).map Char.toLower ++
        scanRuns (xs.dropWhile Char.isAlpha) := by
  induction xs with
  | nil => simp [scanRun, scanRuns]
  | cons x xs ih =>
      by_cases hx : x.isAlpha
      · rw [scanRun, if_pos hx, ih, List.takeWhile_cons, if_pos hx,
            List.dropWhile_cons, if_pos hx]
        simp
      · have ht : (x :: xs).takeWhile Char.isAlpha = [] := by
          rw [List.takeWhile_cons, if_neg hx]
        have hd : (x :: xs).dropWhile Char.isAlpha = x :: xs := by
          rw [List.dropWhile_cons, if_neg hx]
        by_cases hu : x = '_'
        · subst hu
          rw [scanRun, if_neg hx, if_pos rfl, ht, hd]
          simp [scanRuns]
        · rw [scanRun, if_neg hx, if_neg hu, ht, hd]
          simp [scanRuns, hu]

theorem scanRuns_eq_specRule2_bounded :
    ∀ (n : Nat) (l : List Char), l.length ≤ n → scanRuns l = specRule2 l := by
  intro n
  induction n with
  | zero =>
      intro l hl
      have : l = [] := List.length_eq_zero.mp (Nat.le_zero.mp hl)
      subst this
      simp [scanRuns, specRule2]
  | succ n ih =>
      intro l hl
      match l with
      | [] => simp [scanRuns, specRule2]
      | c :: cs =>
        by_cases hc : c = '_'
        · subst hc
          match cs with
          | [] =>
              rw [scanRuns, if_pos rfl, scanUnd]
              rw [specRule2]
              simp [specRule2]
          | c' :: cs' =>
            by_cases ha : c'.isAlpha
            · have htw : (c' :: cs').takeWhile Char.isAlpha =
                  c' :: cs'.takeWhile Char.isAlpha := by
                rw [List.takeWhile_cons, if_pos ha]
              have hdw : (c' :: cs').dropWhile Char.isAlpha =
                  cs'.dropWhile Char.isAlpha := by
                rw [List.dropWhile_cons, if_pos ha]
              have hlen : (cs'.dropWhile Char.isAlpha).length ≤ n := by
                have h1 := (List.dropWhile_sublist (l := cs') Char.isAlpha).length_le
                simp at hl
                omega
              rw [scanRuns, if_pos rfl, scanUnd, if_pos ha, scanRun_eq,
                  ih _ hlen, specRule2, if_pos ⟨rfl, by rw [htw]; simp⟩,
                  htw, hdw, titleWord]
              simp
            · have htw : (c' :: cs').takeWhile Char.isAlpha = [] := by
                rw [List.takeWhile_cons, if_neg ha]
              have hrhs : specRule2 ('_' :: c' :: cs') = '_' :: specRule2 (c' :: cs') := by
                rw [specRule2, if_neg (fun h => h.2 htw)]
              by_cases hu : c' = '_'
              · subst hu
                have hlen : ('_' :: cs').length ≤ n := by simp at hl ⊢; omega
                rw [scanRuns, if_pos rfl, scanUnd, if_neg ha, if_pos rfl]
                have hs : scanUnd cs' = scanRuns ('_' :: cs') := by
                  rw [scanRuns, if_pos rfl]
                rw [hs, ih _ hlen, hrhs]
              · have hlen : (c' :: cs').length ≤ n := by simp at hl ⊢; omega
                rw [scanRuns, if_pos rfl, scanUnd, if_neg ha, if_neg hu]
                have hs : c' :: scanRuns cs' = scanRuns (c' :: cs') := by
                  rw [scanRuns, if_neg hu]
                rw [hs, ih _ hlen, hrhs]
        · have hlen : cs.length ≤ n := by simp at hl ⊢; omega
          have hrhs : specRule2 (c :: cs) = c :: specRule2 cs := by
            rw [specRule2, if_neg (fun h => hc h.1)]
          rw [scanRuns, if_neg hc, ih _ hlen, hrhs]

theorem scanRuns_eq_specRule2 (l : List Char) : scanRuns l = specRule2 l :=
  scanRuns_eq_specRule2_bounded l.length l le_rfl

theorem dictGet_registerPath_self (d : Registry) (k : String) (p : List String) :
    dictGet (registerPath d k p) k = some ((dictGet d k).getD [] ++ [p]) := by
  induction d with
  | nil => simp [registerPath, dictGet]
  | cons q rest ih =>
      by_cases h : q.1 = k
      · simp [registerPath, dictGet, h]
      · simp [registerPath, dictGet, h, ih]

theorem dictGet_registerPath_ne (d : Registry) (k k' : String) (p : List String)
    (h : k ≠ k') : dictGet (registerPath d k p) k' = dictGet d k' := by
  induction d with
  | nil => simp [registerPath, dictGet, h]
  | cons q rest ih =>
      by_cases hq : q.1 = k
      · simp [registerPath, dictGet, hq, h]
      · have h' : ¬ (k' = k) := fun hh => h hh.symm
        by_cases hq' : q.1 = k'
        · simp [registerPath, dictGet, hq, hq', h']
        · simp [registerPath, dictGet, hq, hq', ih]

theorem mem_registerPath_self (d : Registry) (k : String) (p : List String) :
    ∃ l, dictGet (registerPath d k p) k = some l ∧ p ∈ l :=
  ⟨(dictGet d k).getD [] ++ [p], dictGet_registerPath_self d k p, by simp⟩

theorem mem_registerPath_of_mem (d : Registry) (k k' : String) (p p' : List String)
    (h : ∃ l, dictGet d k = some l ∧ p ∈ l) :
    ∃ l, dictGet (registerPath d k' p') k = some l ∧ p ∈ l := by
  obtain ⟨l, hl, hp⟩ := h
  by_cases hk : k' = k
  · subst hk
    refine ⟨(dictGet d k').getD [] ++ [p'], dictGet_registerPath_self d k' p', ?_⟩
    rw [hl]
    simp [hp]
  · exact ⟨l, by rw [dictGet_registerPath_ne d k' k p' hk]; exact hl, hp⟩

theorem mem_processObjectPath_of_mem (g : JVal) (d d' : Registry) (q : List String)
    (k : String) (p : List String)
    (hstep : processObjectPath g d q = some d')
    (h : ∃ l, dictGet d k = some l ∧ p ∈ l) :
    ∃ l, dictGet d' k = some l ∧ p ∈ l := by
  unfold processObjectPath at hstep
  cases hq : q.getLast? with
  | none => rw [hq] at hstep; exact absurd hstep (by simp)
  | some name =>
      rw [hq] at hstep
      cases hv : getByPath g q with
      | none => rw [hv] at hstep; exact absurd hstep (by simp)
      | some v =>
          rw [hv] at hstep
          cases v with
          | obj fields =>
              simp only [Option.some.injEq] at hstep
              subst hstep
              by_cases hl : isTruthy ((dictGet fields "_isLinkedToArray").getD (JVal.bool false)) = true
              · rw [if_pos hl]
                exact mem_registerPath_of_mem _ _ _ _ _
                  (mem_registerPath_of_mem _ _ _ _ _ h)
              · rw [if_neg hl]
                exact mem_registerPath_of_mem _ _ _ _ _ h
          | null => exact absurd hstep (by simp)
          | bool b => exact absurd hstep (by simp)
          | num n => exact absurd hstep (by simp)
          | str s => exact absurd hstep (by simp)
          | arr items => exact absurd hstep (by simp)

theorem mem_foldlM_of_mem (g : JVal) (paths : List (List String)) :
    ∀ (d d' : Registry) (k : String) (p : List String),
    paths.foldlM (processObjectPath g) d = some d' →
    (∃ l, dictGet d k = some l ∧ p ∈ l) →
    ∃ l, dictGet d' k = some l ∧ p ∈ l := by
  induction paths with
  | nil =>
      intro d d' k p hfold h
      simp [List.foldlM] at hfold
      subst hfold
      exact h
  | cons q qs ih =>
      intro d d' k p hfold h
      rw [List.foldlM_cons] at hfold
      cases hstep : processObjectPath g d q with
      | none => rw [hstep] at hfold; exact absurd hfold (by simp)
      | some d1 =>
          rw [hstep] at hfold
          simp only [Option.bind_eq_bind, Option.some_bind] at hfold
          exact ih d1 d' k p hfold (mem_processObjectPath_of_mem g d d1 q k p hstep h)

theorem mem_processObjectPath_adds (g : JVal) (d d' : Registry) (q : List String)
    (name : String) (fields : List (String × JVal))
    (hq : q.getLast? = some name)
    (hv : getByPath g q = some (JVal.obj fields))
    (hstep : processObjectPath g d q = some d') :
    (∃ l, dictGet d' name = some l ∧ q ∈ l) ∧
      (isTruthy ((dictGet fields "_isLinkedToArray").getD (JVal.bool false)) = true →
        ∃ l, dictGet d' (singularForm name) = some l ∧ q ∈ l) := by
  unfold processObjectPath at hstep
  rw [hq, hv] at hstep
  simp only [Option.some.injEq] at hstep
  subst hstep
  constructor
  · exact mem_registerPath_self _ _ _
  · intro hl
    rw [if_pos hl]
    exact mem_registerPath_of_mem _ _ _ _ _ (mem_registerPath_self _ _ _)

theorem mem_foldlM_adds (g : JVal) (paths : List (List String)) :
    ∀ (d dF : Registry) (q : List String) (name : String) (fields : List (String × JVal)),
    paths.foldlM (processObjectPath g) d = some dF →
    q ∈ paths →
    q.getLast? = some name →
    getByPath g q = some (JVal.obj fields) →
    (∃ l, dictGet dF name = some l ∧ q ∈ l) ∧
      (isTruthy ((dictGet fields "_isLinkedToArray").getD (JVal.bool false)) = true →
        ∃ l, dictGet dF (singularForm name) = some l ∧ q ∈ l) := by
  induction paths with
  | nil => intro d dF q name fields hfold hmem; exact absurd hmem (by simp)
  | cons r rs ih =>
      intro d dF q name fields hfold hmem hq hv
      rw [List.foldlM_cons] at hfold
      cases hstep : processObjectPath g d r with
      | none => rw [hstep] at hfold; exact absurd hfold (by simp)
      | some d1 =>
          rw [hstep] at hfold
          simp only [Option.bind_eq_bind, Option.some_bind] at hfold
          rcases List.mem_cons.mp hmem with hqr | hqs
          · subst hqr
            have hadd := mem_processObjectPath_adds g d d1 q name fields hq hv hstep
            exact ⟨mem_foldlM_of_mem g rs d1 dF name q hfold hadd.1,
              fun hl => mem_foldlM_of_mem g rs d1 dF (singularForm name) q hfold (hadd.2 hl)⟩
          · exact ih d1 dF q name fields hfold hqs hq hv

theorem dictGet_foldl_setEmpty_not_mem (tns : List String) :
    ∀ (d : Registry) (k : String), k ∉ tns →
    dictGet (tns.foldl (fun d t => dictSet d t ([] : List (List String))) d) k = dictGet d k := by
  induction tns with
  | nil => intro d k _; rfl
  | cons t ts ih =>
      intro d k hk
      rw [List.foldl_cons]
      rw [ih (dictSet d t []) k (fun h => hk (List.mem_cons_of_mem t h))]
      exact dictGet_dictSet_ne d t k [] (fun h => hk (h ▸ List.mem_cons_self t ts))

theorem dictGet_foldl_setEmpty_sets (tns : List String) :
    ∀ (d : Registry) (k : String),
    (dictGet d k = some [] ∨ k ∈ tns) →
    dictGet (tns.foldl (fun d t => dictSet d t ([] : List (List String))) d) k = some [] := by
  induction tns with
  | nil =>
      intro d k h
      rcases h with h | h
      · exact h
      · exact absurd h (by simp)
  | cons t ts ih =>
      intro d k h
      rw [List.foldl_cons]
      by_cases hk : k = t
      · subst hk
        exact ih _ k (Or.inl (dictGet_dictSet_self d k []))
      · rcases h with h | h
        · exact ih _ k (Or.inl (by rw [dictGet_dictSet_ne d t k [] (fun hh => hk hh.symm)]; exact h))
        · rcases List.mem_cons.mp h with h' | h'
          · exact absurd h' hk
          · exact ih _ k (Or.inr h')

/-- C4: for every schema document and object-path/trace-name lists, the object
registry `_get_objects` returns contains the keys `"figure"`, `"data"` and
`"layout"`, each mapped to an empty path list. -/
theorem figure_data_layout_empty_paths (g : JVal) (paths : List (List String))
    (tns : List String) (d : Registry)
    (h : _get_objects g paths tns = some d) :
    dictGet d "figure" = some [] ∧ dictGet d "data" = some [] ∧
      dictGet d "layout" = some [] := by
  unfold _get_objects at h
  cases hfold : paths.foldlM (processObjectPath g) [] with
  | none => rw [hfold] at h; exact absurd h (by simp)
  | some d0 =>
      rw [hfold] at h
      simp only [Option.bind_eq_bind, Option.some_bind, Option.pure_def,
        Option.some.injEq] at h
      subst h
      refine ⟨?_, ?_, ?_⟩
      · rw [dictGet_dictSet_ne _ "layout" "figure" [] (by decide),
            dictGet_dictSet_ne _ "data" "figure" [] (by decide),
            dictGet_dictSet_self]
      · rw [dictGet_dictSet_ne _ "layout" "data" [] (by decide),
            dictGet_dictSet_self]
      · rw [dictGet_dictSet_self]

/-- Witness for C4 at a concrete input. -/
theorem figure_data_layout_empty_paths_witness :
    dictGet [("figure", ([] : List (List String))), ("data", []), ("layout", [])] "figure" = some [] ∧
      dictGet [("figure", ([] : List (List String))), ("data", []), ("layout", [])] "data" = some [] ∧
      dictGet [("figure", ([] : List (List String))), ("data", []), ("layout", [])] "layout" = some [] :=
  figure_data_layout_empty_paths (JVal.obj []) [] []
    [("figure", []), ("data", []), ("layout", [])] (by decide)

/-- C9: in the registry `_get_objects` returns, every trace name and each of
`"figure"`, `"data"`, `"layout"` maps to an empty path list, whatever paths
the traversal collected: the final dict updates replace any accumulated path
lists for those keys. -/
theorem trace_and_fixed_keys_replaced_empty (g : JVal) (paths : List (List String))
    (tns : List String) (d : Registry) (t : String)
    (h : _get_objects g paths tns = some d)
    (ht : t ∈ tns ∨ t = "figure" ∨ t = "data" ∨ t = "layout") :
    dictGet d t = some [] := by
  unfold _get_objects at h
  cases hfold : paths.foldlM (processObjectPath g) [] with
  | none => rw [hfold] at h; exact absurd h (by simp)
  | some d0 =>
      rw [hfold] at h
      simp only [Option.bind_eq_bind, Option.some_bind, Option.pure_def,
        Option.some.injEq] at h
      subst h
      by_cases h3 : t = "layout"
      · subst h3; rw [dictGet_dictSet_self]
      · rw [dictGet_dictSet_ne _ "layout" t [] (fun hh => h3 hh.symm)]
        by_cases h2 : t = "data"
        · subst h2; rw [dictGet_dictSet_self]
        · rw [dictGet_dictSet_ne _ "data" t [] (fun hh => h2 hh.symm)]
          by_cases h1 : t = "figure"
          · subst h1; rw [dictGet_dictSet_self]
          · rw [dictGet_dictSet_ne _ "figure" t [] (fun hh => h1 hh.symm)]
            rcases ht with ht | ht | ht | ht
            · exact dictGet_foldl_setEmpty_sets tns d0 t (Or.inr ht)
            · exact absurd ht h1
            · exact absurd ht h2
            · exact absurd ht h3

/-- Witness for C9 at a concrete input on which the traversal did collect a
path ending in the trace name, subsequently replaced by the empty list. -/
theorem trace_and_fixed_keys_replaced_empty_witness :
    dictGet [("scatter", ([] : List (List String))), ("figure", []), ("data", []), ("layout", [])]
        "scatter" = some [] :=
  trace_and_fixed_keys_replaced_empty
    (JVal.obj [("scatter", JVal.obj [("role", JVal.str "object")])])
    [["scatter"]] ["scatter"]
    [("scatter", []), ("figure", []), ("data", []), ("layout", [])]
    "scatter" (by decide) (Or.inl (by decide))

/-- C3, amended: for every schema document, every traversal-collected object
path whose node has a truthy `_isLinkedToArray` and whose final segment ends in
"s" is stored in the registry under both the plural (final segment) and the
singular (final segment minus its last character) keys — provided neither name
collides with a trace name or with the fixed keys `figure`/`data`/`layout`,
whose final updates replace those entries. -/
theorem linked_array_singular_plural_registered
    (g : JVal) (tns : List String) (reg : Registry) (path : List String) (name : String)
    (htn : TRACE_NAMES g = some tns)
    (hobj : OBJECTS g = some reg)
    (hp : path ∈ OBJECT_PATHS g)
    (hname : path.getLast? = some name)
    (hlinked : nodeIsLinkedToArray g path = true)
    (_hends : name.data.getLast? = some 's')
    (hn1 : name ∉ tns) (hn2 : name ≠ "figure") (hn3 : name ≠ "data") (hn4 : name ≠ "layout")
    (hm1 : singularForm name ∉ tns) (hm2 : singularForm name ≠ "figure")
    (hm3 : singularForm name ≠ "data") (hm4 : singularForm name ≠ "layout") :
    (∃ l, dictGet reg name = some l ∧ path ∈ l) ∧
      (∃ l, dictGet reg (singularForm name) = some l ∧ path ∈ l) := by
  unfold OBJECTS at hobj
  rw [htn] at hobj
  simp only [Option.bind_eq_bind, Option.some_bind] at hobj
  unfold _get_objects at hobj
  cases hfold : (OBJECT_PATHS g).foldlM (processObjectPath g) [] with
  | none => rw [hfold] at hobj; exact absurd hobj (by simp)
  | some d0 =>
      rw [hfold] at hobj
      simp only [Option.bind_eq_bind, Option.some_bind, Option.pure_def,
        Option.some.injEq] at hobj
      subst hobj
      obtain ⟨fields, hv, hl⟩ : ∃ fields, getByPath g path = some (JVal.obj fields) ∧
          isTruthy ((dictGet fields "_isLinkedToArray").getD (JVal.bool false)) = true := by
        unfold nodeIsLinkedToArray at hlinked
        cases hgb : getByPath g path with
        | none => rw [hgb] at hlinked; exact absurd hlinked (by simp)
        | some v =>
            rw [hgb] at hlinked
            cases v with
            | obj fields => exact ⟨fields, rfl, hlinked⟩
            | null => exact absurd hlinked (by simp)
            | bool b => exact absurd hlinked (by simp)
            | num n => exact absurd hlinked (by simp)
            | str s => exact absurd hlinked (by simp)
            | arr items => exact absurd hlinked (by simp)
      have hadd := mem_foldlM_adds g (OBJECT_PATHS g) [] d0 path name fields hfold hp hname hv
      have transport : ∀ k : String, k ∉ tns → k ≠ "figure" → k ≠ "data" → k ≠ "layout" →
          (∃ l, dictGet d0 k = some l ∧ path ∈ l) →
          ∃ l, dictGet (dictSet (dictSet (dictSet
              (tns.foldl (fun d t => dictSet d t []) d0) "figure" []) "data" [])
              "layout" []) k = some l ∧ path ∈ l := by
        intro k hk1 hk2 hk3 hk4 hmem
        rw [dictGet_dictSet_ne _ "layout" k [] (fun hh => hk4 hh.symm),
            dictGet_dictSet_ne _ "data" k [] (fun hh => hk3 hh.symm),
            dictGet_dictSet_ne _ "figure" k [] (fun hh => hk2 hh.symm),
            dictGet_foldl_setEmpty_not_mem tns d0 k hk1]
        exact hmem
      exact ⟨transport name hn1 hn2 hn3 hn4 hadd.1,
        transport (singularForm name) hm1 hm2 hm3 hm4 (hadd.2 hl)⟩

/-- Witness for C3 at a concrete schema with a linked-to-array node
`"markers"`. -/
theorem linked_array_singular_plural_registered_witness :
    (∃ l, dictGet [("marker", [["markers"]]), ("markers", [["markers"]]),
        ("figure", ([] : List (List String))), ("data", []), ("layout", [])] "markers" = some l ∧
        ["markers"] ∈ l) ∧
      (∃ l, dictGet [("marker", [["markers"]]), ("markers", [["markers"]]),
        ("figure", ([] : List (List String))), ("data", []), ("layout", [])]
        (singularForm "markers") = some l ∧ ["markers"] ∈ l) :=
  linked_array_singular_plural_registered gMarkers []
    [("marker", [["markers"]]), ("markers", [["markers"]]),
      ("figure", []), ("data", []), ("layout", [])]
    ["markers"] "markers" (by decide) (by decide) (by decide) (by decide)
    (by decide) (by decide) (by decide) (by decide) (by decide) (by decide)
    (by decide) (by decide) (by decide) (by decide)

/-- Counterexample for C3 as stated: in `gPoints` the plural name `"points"`
is also a trace name, so the final updates replace its path list by the empty
list and the registry does not store the path under the plural key. -/
theorem linked_array_plural_overwritten_cex :
    ["points"] ∈ OBJECT_PATHS gPoints ∧
      nodeIsLinkedToArray gPoints ["points"] = true ∧
      "points".data.getLast? = some 's' ∧
      pathRegisteredUnder gPoints ["points"] "points" = false ∧
      pathRegisteredUnder gPoints ["points"] "point" = true := by
  refine ⟨by decide, by decide, by decide, by decide, by decide⟩

/-- A registry in which every stored path lies under its own final segment or
under that segment minus its last character. -/
def registryConsistent (d : Registry) : Prop :=
  ∀ (k : String) (l : List (List String)) (p : List String),
    dictGet d k = some l → p ∈ l →
    ∃ name, p.getLast? = some name ∧ (name = k ∨ singularForm name = k)

theorem registryConsistent_nil : registryConsistent [] := by
  intro k l p hget _
  exact absurd hget (by simp [dictGet])

theorem registryConsistent_registerPath (d : Registry) (k0 : String) (p0 : List String)
    (hq : ∃ n, p0.getLast? = some n ∧ (n = k0 ∨ singularForm n = k0))
    (hd : registryConsistent d) : registryConsistent (registerPath d k0 p0) := by
  intro k l p hget hp
  by_cases hk : k = k0
  · subst hk
    rw [dictGet_registerPath_self] at hget
    cases hget
    rcases List.mem_append.mp hp with hold | hnew
    · cases h0 : dictGet d k with
      | none => rw [h0] at hold; exact absurd hold (by simp)
      | some l0 =>
          rw [h0] at hold
          exact hd k l0 p h0 hold
    · obtain ⟨n, hn, hdisj⟩ := hq
      have : p = p0 := by simpa using hnew
      subst this
      exact ⟨n, hn, hdisj⟩
  · rw [dictGet_registerPath_ne d k0 k p0 (fun hh => hk hh.symm)] at hget
    exact hd k l p hget hp

theorem registryConsistent_processObjectPath (g : JVal) (d d' : Registry)
    (q : List String) (hstep : processObjectPath g d q = some d')
    (hd : registryConsistent d) : registryConsistent d' := by
  unfold processObjectPath at hstep
  cases hq : q.getLast? with
  | none => rw [hq] at hstep; exact absurd hstep (by simp)
  | some name =>
      rw [hq] at hstep
      cases hv : getByPath g q with
      | none => rw [hv] at hstep; exact absurd hstep (by simp)
      | some v =>
          rw [hv] at hstep
          cases v with
          | obj fields =>
              simp only [Option.some.injEq] at hstep
              subst hstep
              by_cases hl : isTruthy ((dictGet fields "_isLinkedToArray").getD (JVal.bool false)) = true
              · rw [if_pos hl]
                exact registryConsistent_registerPath _ name q ⟨name, hq, Or.inl rfl⟩
                  (registryConsistent_registerPath _ (singularForm name) q
                    ⟨name, hq, Or.inr rfl⟩ hd)
              · rw [if_neg hl]
                exact registryConsistent_registerPath _ name q ⟨name, hq, Or.inl rfl⟩ hd
          | null => exact absurd hstep (by simp)
          | bool b => exact absurd hstep (by simp)
          | num n => exact absurd hstep (by simp)
          | str s => exact absurd hstep (by simp)
          | arr items => exact absurd hstep (by simp)

theorem registryConsistent_foldlM (g : JVal) (paths : List (List String)) :
    ∀ (d d' : Registry), paths.foldlM (processObjectPath g) d = some d' →
    registryConsistent d → registryConsistent d' := by
  induction paths with
  | nil =>
      intro d d' hfold hd
      simp [List.foldlM] at hfold
      subst hfold
      exact hd
  | cons q qs ih =>
      intro d d' hfold hd
      rw [List.foldlM_cons] at hfold
      cases hstep : processObjectPath g d q with
      | none => rw [hstep] at hfold; exact absurd hfold (by simp)
      | some d1 =>
          rw [hstep] at hfold
          simp only [Option.bind_eq_bind, Option.some_bind] at hfold
          exact ih d1 d' hfold (registryConsistent_processObjectPath g d d1 q hstep hd)

theorem registryConsistent_dictSetEmpty (d : Registry) (k0 : String)
    (hd : registryConsistent d) : registryConsistent (dictSet d k0 []) := by
  intro k l p hget hp
  by_cases hk : k = k0
  · subst hk
    rw [dictGet_dictSet_self] at hget
    cases hget
    exact absurd hp (by simp)
  · rw [dictGet_dictSet_ne d k0 k [] (fun hh => hk hh.symm)] at hget
    exact hd k l p hget hp

theorem registryConsistent_foldl_setEmpty (tns : List String) :
    ∀ (d : Registry), registryConsistent d →
    registryConsistent (tns.foldl (fun d t => dictSet d t []) d) := by
  induction tns with
  | nil => intro d hd; exact hd
  | cons t ts ih =>
      intro d hd
      rw [List.foldl_cons]
      exact ih _ (registryConsistent_dictSetEmpty d t hd)

/-- C10: in the registry `_get_objects` returns, every stored path is
non-empty and its final segment either equals the key it is stored under or,
with its last character removed, equals that key. -/
theorem registry_paths_match_key (g : JVal) (paths : List (List String))
    (tns : List String) (d : Registry) (k : String) (l : List (List String))
    (p : List String)
    (h : _get_objects g paths tns = some d)
    (hget : dictGet d k = some l) (hp : p ∈ l) :
    p ≠ [] ∧ ∃ name, p.getLast? = some name ∧ (name = k ∨ singularForm name = k) := by
  unfold _get_objects at h
  cases hfold : paths.foldlM (processObjectPath g) [] with
  | none => rw [hfold] at h; exact absurd h (by simp)
  | some d0 =>
      rw [hfold] at h
      simp only [Option.bind_eq_bind, Option.some_bind, Option.pure_def,
        Option.some.injEq] at h
      subst h
      have hc : registryConsistent (dictSet (dictSet (dictSet
          (tns.foldl (fun d t => dictSet d t []) d0) "figure" []) "data" [])
          "layout" []) :=
        registryConsistent_dictSetEmpty _ _ (registryConsistent_dictSetEmpty _ _
          (registryConsistent_dictSetEmpty _ _ (registryConsistent_foldl_setEmpty tns d0
            (registryConsistent_foldlM g paths [] d0 hfold registryConsistent_nil))))
      obtain ⟨name, hn, hdisj⟩ := hc k l p hget hp
      refine ⟨?_, name, hn, hdisj⟩
      intro hnil
      subst hnil
      simp at hn

/-- Witness for C10 at a concrete input. -/
theorem registry_paths_match_key_witness :
    ["markers"] ≠ ([] : List String) ∧
      ∃ name, ["markers"].getLast? = some name ∧
        (name = "marker" ∨ singularForm name = "marker") :=
  registry_paths_match_key gMarkers [["markers"]] []
    [("marker", [["markers"]]), ("markers", [["markers"]]),
      ("figure", []), ("data", []), ("layout", [])]
    "marker" [["markers"]] ["markers"] (by decide) (by decide) (by decide)

/-- C5, amended: on the minimal schema document the registry maps `"scatter"`
to an empty path list and also maps `"layout"` to an empty path list, because
the final fixed update replaces the path list the traversal accumulated. -/
theorem minimal_schema_registry :
    OBJECTS gMinimal =
        some [("layout", []), ("scatter", []), ("figure", []), ("data", [])] ∧
      (OBJECTS gMinimal).bind (fun reg => dictGet reg "scatter") = some [] ∧
      (OBJECTS gMinimal).bind (fun reg => dictGet reg "layout") = some [] := by
  refine ⟨by decide, by decide, by decide⟩

/-- Counterexample for C5 as stated: the traversal does find the path
`["layout"]`, but the registry does not keep it under `"layout"` — the fixed
update replaces the entry with the empty list instead of merging. -/
theorem minimal_schema_layout_merge_cex :
    ["layout"] ∈ OBJECT_PATHS gMinimal ∧
      pathRegisteredUnder gMinimal ["layout"] "layout" = false := by
  refine ⟨by decide, by decide⟩

/-- Counterexample for C1 as stated: with no underscore in the input only the
first character is capitalized, so `"histogram2dcontour"` maps to
`"Histogram2dcontour"`, not `"Histogram2Dcontour"`. -/
theorem histogram2dcontour_class_name_cex :
    string_to_class_name "histogram2dcontour" = "Histogram2dcontour" ∧
      string_to_class_name "histogram2dcontour" ≠ "Histogram2Dcontour" := by
  refine ⟨by decide, by decide⟩

/-- C1, amended: `string_to_class_name` maps `"error_y"` to `"ErrorY"` and
`"histogram2dcontour"` to `"Histogram2dcontour"`, and is deterministic (equal
inputs give equal outputs). -/
theorem string_to_class_name_examples_det :
    string_to_class_name "error_y" = "ErrorY" ∧
      string_to_class_name "histogram2dcontour" = "Histogram2dcontour" ∧
      ∀ s t : String, s = t → string_to_class_name s = string_to_class_name t :=
  ⟨by decide, by decide, fun s t h => by rw [h]⟩

/-- Witness for the determinism part of the amended C1 at a concrete input. -/
theorem string_to_class_name_examples_det_witness :
    string_to_class_name "error_y" = string_to_class_name "error_y" :=
  string_to_class_name_examples_det.2.2 "error_y" "error_y" rfl

/-- C2: on every input string, `string_to_class_name` agrees with the
NameTransformer specified by the two rules (capitalize only the first
alphabetic character; for each `_[A-Za-z]+` run drop the underscore and
capitalize the run). -/
theorem string_to_class_name_matches_spec_rules (s : String) :
    string_to_class_name s = specNameTransform s := by
  unfold string_to_class_name specNameTransform
  rw [capitalizeFirstAlpha_eq_specRule1, scanRuns_eq_specRule2]

theorem dictGet_foldl_dictSet_not_mem {α : Type} (pairs : List (String × α)) :
    ∀ (d : List (String × α)) (k : String), k ∉ pairs.map Prod.fst →
    dictGet (pairs.foldl (fun d kv => dictSet d kv.1 kv.2) d) k = dictGet d k := by
  induction pairs with
  | nil => intro d k _; rfl
  | cons q qs ih =>
      intro d k hk
      rw [List.foldl_cons]
      rw [ih (dictSet d q.1 q.2) k (fun h => hk (by simp [h]))]
      exact dictGet_dictSet_ne d q.1 k q.2 (fun h => hk (by simp [h]))

theorem dictGet_foldl_dictSet_mem {α : Type} (pairs : List (String × α)) :
    ∀ (d : List (String × α)) (k : String) (v : α),
    pairs.Pairwise (fun a b => a.1 ≠ b.1) → (k, v) ∈ pairs →
    dictGet (pairs.foldl (fun d kv => dictSet d kv.1 kv.2) d) k = some v := by
  induction pairs with
  | nil => intro d k v _ hmem; exact absurd hmem (by simp)
  | cons q qs ih =>
      intro d k v hpw hmem
      rw [List.foldl_cons]
      rcases List.mem_cons.mp hmem with hq | hqs
      · have hk : q.1 = k := by rw [← hq]
        have hv : q.2 = v := by rw [← hq]
        subst hk
        subst hv
        rw [dictGet_foldl_dictSet_not_mem qs (dictSet d q.1 q.2) q.1 ?notmem]
        · exact dictGet_dictSet_self d q.1 q.2
        case notmem =>
          intro hin
          obtain ⟨b, hb, hb1⟩ := List.mem_map.mp hin
          exact (List.pairwise_cons.mp hpw).1 b hb hb1.symm
      · exact ih (dictSet d q.1 q.2) k v (List.pairwise_cons.mp hpw).2 hqs

/-- C6: every entry of the backwards-compatibility table appears in the final
class-name registry exactly as declared, whatever object names the derivation
pass processed — the overlay loop overwrites any colliding derived entry. -/
theorem backwards_compat_aliases_present (objectNames : List String)
    (className objName : String)
    (hmem : (className, objName) ∈ _BACKWARDS_COMPAT_CLASS_NAME_TO_OBJECT_NAME) :
    dictGet (_get_class_names_to_object_names objectNames) className = some objName := by
  unfold _get_class_names_to_object_names
  exact dictGet_foldl_dictSet_mem _ _ className objName (by decide) hmem

/-- Witness for C6 at a concrete collision: `string_to_class_name "area"` is
`"Area"`, yet the registry maps `"Area"` to the table's `"scatter"`. -/
theorem backwards_compat_aliases_present_witness :
    dictGet (_get_class_names_to_object_names ["area"]) "Area" = some "scatter" :=
  backwards_compat_aliases_present ["area"] "Area" "scatter" (by decide)

theorem fetchSchema_failure (env : Env) (url : String)
    (hfail : env.requestsGet url = HttpResult.netError ∨
      ∃ status content, env.requestsGet url = HttpResult.response status content ∧
        raiseForStatusFails status = true) :
    fetchSchema env url = .error (.plotlyError (schemaErrorMessage url)) := by
  unfold fetchSchema
  rcases hfail with hf | ⟨st, ct, hf, hs⟩
  · rw [hf]
  · rw [hf]
    simp only [hs, if_true]

/-- C7: when no cached schema is available (permissions denied, or the cached
schema is empty and the config names the domain `d`) and the HTTP GET on the
constructed URL fails with a network error or an error status, the call fails
with the `PlotlyError` whose message names the URL `d ++ GRAPH_REFERENCE_PATH`
(an HTTP GET was issued), and the raw network exception is not propagated. -/
theorem get_graph_reference_fetch_failure_plotly_error (env : Env) (d : String)
    (hnc : (env.filePermissions = false ∧ d = env.defaultDomain) ∨
      (env.filePermissions = true ∧ env.graphReferenceFile = [] ∧
        dictGet env.configFile "plotly_domain" = some (JVal.str d)))
    (hfail : env.requestsGet (d ++ GRAPH_REFERENCE_PATH) = HttpResult.netError ∨
      ∃ status content,
        env.requestsGet (d ++ GRAPH_REFERENCE_PATH) = HttpResult.response status content ∧
        raiseForStatusFails status = true) :
    (get_graph_reference env).result =
        Except.error (PyError.plotlyError (schemaErrorMessage (d ++ GRAPH_REFERENCE_PATH))) ∧
      (get_graph_reference env).httpCalled = true ∧
      schemaErrorMessage (d ++ GRAPH_REFERENCE_PATH) =
        schemaErrorMessageHead ++ (d ++ GRAPH_REFERENCE_PATH) ++ schemaErrorMessageTail ∧
      (get_graph_reference env).result ≠ Except.error PyError.requestException := by
  have hfetch := fetchSchema_failure env (d ++ GRAPH_REFERENCE_PATH) hfail
  have hmain : get_graph_reference env =
      ⟨Except.error (PyError.plotlyError (schemaErrorMessage (d ++ GRAPH_REFERENCE_PATH))),
        true⟩ := by
    unfold get_graph_reference
    rcases hnc with ⟨hperm, hd⟩ | ⟨hperm, hempty, hdom⟩
    · subst hd
      rw [hperm]
      simp only [Bool.false_eq_true, if_false]
      simp only [isTruthy, List.isEmpty_nil, Bool.not_true, Bool.false_eq_true, if_false]
      rw [hfetch]
    · rw [hperm]
      simp only [if_true]
      rw [hdom, hempty]
      simp only [isTruthy, List.isEmpty_nil, Bool.not_true, Bool.false_eq_true, if_false]
      rw [hfetch]
  rw [hmain]
  exact ⟨rfl, rfl, rfl, by simp⟩

/-- Witness for C7 at a concrete offline environment. -/
theorem get_graph_reference_fetch_failure_plotly_error_witness :
    (get_graph_reference envOffline).result =
        Except.error (PyError.plotlyError
          (schemaErrorMessage ("https://plot.ly" ++ GRAPH_REFERENCE_PATH))) ∧
      (get_graph_reference envOffline).httpCalled = true ∧
      schemaErrorMessage ("https://plot.ly" ++ GRAPH_REFERENCE_PATH) =
        schemaErrorMessageHead ++ ("https://plot.ly" ++ GRAPH_REFERENCE_PATH) ++
          schemaErrorMessageTail ∧
      (get_graph_reference envOffline).result ≠ Except.error PyError.requestException :=
  get_graph_reference_fetch_failure_plotly_error envOffline "https://plot.ly"
    (Or.inl ⟨rfl, rfl⟩) (Or.inl rfl)

/-- C8, amended: when permissions allow, the cached schema is a non-empty
mapping, and the config file does contain the `plotly_domain` key, the call
issues no HTTP GET and returns the unicode-normalized cached document. -/
theorem get_graph_reference_uses_cache (env : Env) (dv : JVal)
    (hp : env.filePermissions = true)
    (hne : env.graphReferenceFile ≠ [])
    (hd : dictGet env.configFile "plotly_domain" = some dv) :
    get_graph_reference env =
      ⟨Except.ok (env.decodeUnicode (JVal.obj env.graphReferenceFile)), false⟩ := by
  unfold get_graph_reference
  rw [hp]
  simp only [if_true]
  rw [hd]
  have htr : isTruthy (JVal.obj env.graphReferenceFile) = true := by
    simp [isTruthy, hne]
  simp only [htr, if_true]

/-- Witness for the amended C8 at a concrete environment. -/
theorem get_graph_reference_uses_cache_witness :
    get_graph_reference envCached =
      ⟨Except.ok (envCached.decodeUnicode (JVal.obj envCached.graphReferenceFile)), false⟩ :=
  get_graph_reference_uses_cache envCached (JVal.str "https://plot.ly") rfl
    (List.cons_ne_nil _ _) rfl

/-- Counterexample for C8 as stated: with permissions granted and a non-empty
cached schema but a config file lacking `plotly_domain`, the eager
`config['plotly_domain']` raises `KeyError` and nothing is returned (though no
HTTP GET is issued either). -/
theorem cached_schema_missing_domain_cex :
    envNoDomain.filePermissions = true ∧
      envNoDomain.graphReferenceFile ≠ [] ∧
      (get_graph_reference envNoDomain).result = Except.error PyError.keyError ∧
      (get_graph_reference envNoDomain).httpCalled = false ∧
      (get_graph_reference envNoDomain).result ≠
        Except.ok (envNoDomain.decodeUnicode (JVal.obj envNoDomain.graphReferenceFile)) := by
  refine ⟨rfl, List.cons_ne_nil _ _, rfl, rfl, fun h => Except.noConfusion h⟩

end GraphReference
